import Mathlib

/-!
Verification development for the folio media-archive tool.

Shallow embedding of `crates/folio-core/src/media.rs` and the ingest
planning loop of `crates/folio-cli/src/main.rs`.

Embedding conventions:
* `chrono::DateTime<Utc>` instants and `chrono::Duration` gaps are both
  embedded as `Int` (one integer time unit, exact arithmetic, matching
  chrono's exact instant subtraction and comparison).
* For the naming engine, a UTC instant is embedded by its wall-clock
  calendar fields (`UtcDateTime`), which is how `generate_filename` and
  `generate_folder_path` consume it (via chrono's accessors).
* BLAKE3 digests are embedded as `Nat` (an opaque value only compared
  for equality, exactly how the code uses them).
* Fallible operations (`anyhow::Result`) are embedded as `Except String`.
* External collaborators (the EXIF reader, the chrono datetime parser,
  the filesystem) are embedded as explicit inputs describing their
  outcome, so each function is a pure function of the code's actual
  decision inputs.
-/

inductive PhotoFormat
  | Jpeg
deriving DecidableEq

inductive VideoFormat
  | Mov
  | Mp4
deriving DecidableEq

inductive MediaType
  | Photo (format : PhotoFormat)
  | Video (format : VideoFormat)
deriving DecidableEq

/-- Embeds the result of Rust `Path::extension()`: `none` when the path has
no extension at all; `some o` otherwise, where `o.utf8 = none` embeds an
extension (`OsStr`) that is not valid UTF-8 (`to_str()` returns `None`). -/
structure OsStr where
  utf8 : Option String
deriving DecidableEq

/-- A source path, abstracted to the only part of it `detect_media_type`
inspects: its extension component. -/
structure FsPath where
  extension : Option OsStr
deriving DecidableEq

/-- Embeds `detect_media_type` (media.rs 56-65): `path.extension()?.to_str()?`
then a case-insensitive table lookup.  Rust `to_lowercase` agrees with
`String.toLower` on the ASCII strings compared against here. -/
def detect_media_type (path : FsPath) : Option MediaType :=
  match path.extension with
  | none => none
  | some o =>
    match o.utf8 with
    | none => none
    | some s =>
      let ext := s.toLower
      if ext = "jpg" ∨ ext = "jpeg" then some (.Photo .Jpeg)
      else if ext = "mov" then some (.Video .Mov)
      else if ext = "mp4" then some (.Video .Mp4)
      else none

structure MediaItem where
  path : String
  hash : Nat
  size : Nat
  media_type : MediaType
  timestamp : Option Int
  folder_path : String
deriving DecidableEq

instance : Inhabited MediaItem :=
  ⟨⟨"", 0, 0, .Photo .Jpeg, none, ""⟩⟩

structure TemporalBatch where
  start_time : Int
  end_time : Int
  items : List MediaItem
deriving DecidableEq

/-- Embeds `item.timestamp.unwrap()`: in the code this is only evaluated on
items that passed the `timestamp.is_some()` filter, so the default is never
observed. -/
def tsOf (item : MediaItem) : Int :=
  item.timestamp.getD 0

/-- Timestamp of the first item of a (nonempty) run. -/
def firstTs (run : List MediaItem) : Int :=
  tsOf (run.headD default)

/-- Embeds `current_batch_items.last().unwrap().timestamp.unwrap()`. -/
def lastTs (run : List MediaItem) : Int :=
  tsOf (run.getLastD default)

/-- Embeds Rust `Option::<DateTime<Utc>>::cmp` as a `≤` test: `None` sorts
before `Some`, and `Some` values compare by instant. -/
def optTsLe (a b : Option Int) : Bool :=
  match a, b with
  | none, _ => true
  | some _, none => false
  | some x, some y => decide (x ≤ y)

/-- The comparator of `sorted_items.sort_by(|a, b| a.timestamp.cmp(&b.timestamp))`
(media.rs 271), as the `≤` relation of that ordering.  Both the Rust slice
sort and `List.mergeSort` are stable merge sorts, so they produce the same
output for the same `≤` relation. -/
def mediaLe (a b : MediaItem) : Bool :=
  optTsLe a.timestamp b.timestamp

/-- Embeds the loop body state machine of `group_by_temporal_proximity`
(media.rs 277-320): `batches` / `current_batch_items` / `batch_start_time`
are the three mutable locals, the list argument is the remaining iterator. -/
def group_loop (gap_threshold : Int) (batches : List TemporalBatch)
    (current : List MediaItem) (start_t : Int) :
    List MediaItem → List TemporalBatch
  | [] =>
    if current.isEmpty then batches
    else batches ++ [⟨start_t, lastTs current, current⟩]
  | item :: rest =>
    if current.isEmpty then
      group_loop gap_threshold batches [item] start_t rest
    else
      let prev_ts := lastTs current
      let gap := tsOf item - prev_ts
      if gap > gap_threshold then
        group_loop gap_threshold (batches ++ [⟨start_t, prev_ts, current⟩])
          [item] (tsOf item) rest
      else
        group_loop gap_threshold batches (current ++ [item]) start_t rest

/-- Embeds `group_by_temporal_proximity` (media.rs 254-323): filter out
untimestamped items, stable-sort by timestamp, then run the batching loop
with `batch_start_time` initialised to the first sorted timestamp. -/
def group_by_temporal_proximity (items : List MediaItem) (gap_threshold : Int) :
    List TemporalBatch :=
  if items.isEmpty then []
  else
    let sorted_items := (items.filter (fun i => i.timestamp.isSome)).mergeSort mediaLe
    if sorted_items.isEmpty then []
    else group_loop gap_threshold [] [] (tsOf (sorted_items.headD default)) sorted_items

/-- Proof-side restatement of the batching walk: the partition of
`current ++ l` into gap-separated runs, given the currently open run.
`group_loop` is proved equal to this below (`group_loop_eq_runs`). -/
def runs (gap_threshold : Int) (current : List MediaItem) :
    List MediaItem → List (List MediaItem)
  | [] => [current]
  | x :: rest =>
    if tsOf x - lastTs current > gap_threshold then
      current :: runs gap_threshold [x] rest
    else
      runs gap_threshold (current ++ [x]) rest

/-- Batch built from a nonempty run: start/end times are the first/last
member timestamps, exactly how `group_loop` records them. -/
def mkBatch (run : List MediaItem) : TemporalBatch :=
  ⟨firstTs run, lastTs run, run⟩

/-- Intra-batch gap condition: consecutive items at most `t` apart. -/
def gapLe (t : Int) (a b : MediaItem) : Prop :=
  tsOf b - tsOf a ≤ t

/-- Inter-batch gap condition: the gap from one run's last item to the next
run's first item strictly exceeds `t`. -/
def interGap (t : Int) (u v : List MediaItem) : Prop :=
  firstTs v - lastTs u > t

/-- Embeds the per-record timestamp resolution of `scan_directory`
(media.rs 370-371): `get_capture_timestamp(path, ty)?` then
`.or_else(|| get_file_modified_date(path).ok())`.  `capture_res` is the
result of the embedded-metadata lookup, `modified_res` the result of
reading the filesystem modification time; the `.ok()` discards the
latter's error. -/
def scan_timestamp {α : Type} (capture_res : Except String (Option α))
    (modified_res : Except String α) : Except String (Option α) :=
  match capture_res with
  | .error e => .error e
  | .ok ts => .ok (ts.orElse fun _ => modified_res.toOption)

/-- Embeds the folder-path derivation of `scan_directory` (media.rs 374-378):
`generate_folder_path(ts)` when a timestamp was resolved, the literal
`"unknown-date"` otherwise.  `gen` abstracts `generate_folder_path`. -/
def scan_folder_path {α : Type} (gen : α → String) : Option α → String
  | some ts => gen ts
  | none => "unknown-date"

/-- Embeds an `exif::Value`: `ascii` carries the byte-string vector (each
entry already passed through the total `from_utf8_lossy`), `other` any
non-`Ascii` variant. -/
inductive ExifValue
  | ascii (strings : List String)
  | other
deriving DecidableEq

/-- Embeds the parsed EXIF container, abstracted to the single field
`get_capture_timestamp` reads: `DateTimeOriginal` in the primary IFD. -/
structure ExifData where
  date_time_original : Option ExifValue
deriving DecidableEq

/-- Outcomes of the two fallible I/O steps of the photo branch of
`get_capture_timestamp`: opening the file, and
`exif::Reader::read_from_container`. -/
structure PhotoReadEnv where
  open_res : Except String Unit
  container_res : Except String ExifData

/-- Embeds `get_capture_timestamp` (media.rs 69-108).  `parse_datetime`
abstracts `chrono::NaiveDateTime::parse_from_str(s, "%Y:%m:%d %H:%M:%S")`
composed with the UTC conversion; it is applied to the trimmed first ASCII
entry, exactly as in the source.  Every failure after a successful file
open falls through to `Ok(None)`. -/
def get_capture_timestamp (media_type : MediaType) (env : PhotoReadEnv)
    (parse_datetime : String → Option Int) : Except String (Option Int) :=
  match media_type with
  | .Photo _ =>
    match env.open_res with
    | .error e => .error e
    | .ok _ =>
      match env.container_res with
      | .error _ => .ok none
      | .ok ex =>
        match ex.date_time_original with
        | none => .ok none
        | some value =>
          match value with
          | .other => .ok none
          | .ascii strings =>
            match strings.head? with
            | none => .ok none
            | some s =>
              match parse_datetime s.trim with
              | some dt => .ok (some dt)
              | none => .ok none
  | .Video _ => .ok none

/-- Left-pad a decimal rendering with zeros to `width`, the behaviour of
Rust `{:0width}` formatting for the nonnegative values used here. -/
def pad_width (width : Nat) (n : Nat) : String :=
  let s := toString n
  String.mk (List.replicate (width - s.length) '0') ++ s

/-- A UTC instant as seen by the naming engine: chrono's wall-clock
accessor fields. -/
structure UtcDateTime where
  year : Nat
  month : Nat
  day : Nat
  hour : Nat
  minute : Nat
  second : Nat
deriving DecidableEq

/-- Embeds `generate_folder_path` (media.rs 120-127): zero-padded
`YYYY/MM/DD` from the UTC calendar date. -/
def generate_folder_path (timestamp : UtcDateTime) : String :=
  pad_width 4 timestamp.year ++ "/" ++ pad_width 2 timestamp.month ++ "/" ++
    pad_width 2 timestamp.day

/-- Embeds `generate_filename` (media.rs 132-148): zero-padded
`YYYYMMDD-HHMMSS-{batch_name}.{original_extension}`. -/
def generate_filename (timestamp : UtcDateTime) (batch_name : String)
    (original_extension : String) : String :=
  pad_width 4 timestamp.year ++ pad_width 2 timestamp.month ++
    pad_width 2 timestamp.day ++ "-" ++ pad_width 2 timestamp.hour ++
    pad_width 2 timestamp.minute ++ pad_width 2 timestamp.second ++ "-" ++
    batch_name ++ "." ++ original_extension

/-- Embeds `validate_batch_name` (media.rs 168-198).  `is_alnum` abstracts
Rust `char::is_alphanumeric` (Unicode); it agrees with `Char.isAlphanum`
on the ASCII strings exercised in this development.  The three checks run
in the source's order, each with its own message. -/
def validate_batch_name (is_alnum : Char → Bool) (name : String) :
    Except String Unit :=
  if name.isEmpty then
    Except.error "Batch name cannot be empty"
  else if !(name.toList.all fun c => is_alnum c || c == '-' || c == '_') then
    Except.error ("Batch name must contain only alphanumeric characters, hyphens, and underscores (got: " ++ name ++ ")")
  else if !(name.toList.any is_alnum) then
    Except.error ("Batch name must contain at least one alphanumeric character (got: " ++ name ++ ")")
  else
    Except.ok ()

inductive PlanAction
  | Copy
  | SkipDuplicate
deriving DecidableEq

/-- Embeds the destination-side hash index of the ingest command
(main.rs 252-256): scan the destination once, before any copying, and
collect the content hashes; only key membership is ever consulted. -/
def dest_hash_index (dest_items : List MediaItem) : List Nat :=
  dest_items.map (fun i => i.hash)

/-- Embeds the per-item copy/skip decision of the ingest loop
(main.rs 287-295): `dest_hashes.contains_key(&item.hash)` skips, anything
else copies.  The index is the one built before the loop; the loop never
inserts into it. -/
def plan_action (dest_hashes : List Nat) (item : MediaItem) : PlanAction :=
  if dest_hashes.contains item.hash then .SkipDuplicate else .Copy

/-- The copy plan of one ingest run (main.rs 262-296): every item of every
named batch, in iteration order, paired with its action.  The same
`dest_hashes` index is consulted for every item. -/
def ingest_plan (dest_hashes : List Nat)
    (batches : List (TemporalBatch × String)) : List (MediaItem × PlanAction) :=
  (batches.flatMap fun bn => bn.1.items).map fun i => (i, plan_action dest_hashes i)

/-- Embeds the `copied` / `skipped` counters of the ingest loop
(main.rs 259-296) as a fold over the items in iteration order. -/
def copy_skip_counts (dest_hashes : List Nat)
    (batches : List (TemporalBatch × String)) : Nat × Nat :=
  (batches.flatMap fun bn => bn.1.items).foldl
    (fun acc i =>
      if dest_hashes.contains i.hash then (acc.1, acc.2 + 1) else (acc.1 + 1, acc.2))
    (0, 0)

/-- A concrete timestamped photo record, for instantiating theorems. -/
def sampleItem (ts : Int) : MediaItem :=
  ⟨"w.jpg", 0, 1, .Photo .Jpeg, some ts, ""⟩

/-- A concrete record with no resolvable timestamp. -/
def sampleItemNoTs : MediaItem :=
  ⟨"w.jpg", 0, 1, .Photo .Jpeg, none, ""⟩

/-- A concrete timestamped photo record with a chosen content hash. -/
def sampleItemHash (h : Nat) : MediaItem :=
  ⟨"w.jpg", h, 1, .Photo .Jpeg, some 0, ""⟩

theorem firstTs_cons (a : MediaItem) (l : List MediaItem) :
    firstTs (a :: l) = tsOf a := rfl

theorem firstTs_append (l l₂ : List MediaItem) (h : l ≠ []) :
    firstTs (l ++ l₂) = firstTs l := by
  cases l with
  | nil => exact absurd rfl h
  | cons a t => rfl

theorem lastTs_concat (l : List MediaItem) (x : MediaItem) :
    lastTs (l ++ [x]) = tsOf x := by
  simp [lastTs, List.getLastD_concat]

theorem lastTs_of_getLast? (l : List MediaItem) (a : MediaItem)
    (h : l.getLast? = some a) : lastTs l = tsOf a := by
  simp [lastTs, List.getLastD_eq_getLast?, h]

theorem chain_concat {R : MediaItem → MediaItem → Prop} {l : List MediaItem}
    {x : MediaItem} (hc : List.Chain' R l)
    (hl : ∀ a, l.getLast? = some a → R a x) :
    List.Chain' R (l ++ [x]) := by
  rw [List.chain'_append]
  refine ⟨hc, List.chain'_singleton x, ?_⟩
  intro a ha y hy
  simp only [List.head?_cons, Option.mem_def, Option.some.injEq] at hy
  subst hy
  exact hl a ha

theorem runs_ne_nil (t : Int) (c : List MediaItem) (l : List MediaItem) :
    runs t c l ≠ [] := by
  induction l generalizing c with
  | nil => simp [runs]
  | cons x rest ih =>
    simp only [runs]
    split
    · simp
    · exact ih (c ++ [x])

theorem runs_flatten (t : Int) (c : List MediaItem) (l : List MediaItem) :
    (runs t c l).flatten = c ++ l := by
  induction l generalizing c with
  | nil => simp [runs]
  | cons x rest ih =>
    simp only [runs]
    split
    · simp [ih]
    · simp [ih (c ++ [x])]

theorem runs_invariant (t : Int) (l : List MediaItem) :
    ∀ c, c ≠ [] → List.Chain' (gapLe t) c →
      (∀ b ∈ runs t c l, b ≠ [] ∧ List.Chain' (gapLe t) b) ∧
      List.Chain' (interGap t) (runs t c l) ∧
      firstTs ((runs t c l).headD []) = firstTs c := by
  induction l with
  | nil =>
    intro c hne hchain
    refine ⟨?_, ?_, ?_⟩
    · intro b hb
      simp only [runs, List.mem_singleton] at hb
      subst hb
      exact ⟨hne, hchain⟩
    · simp [runs]
    · simp [runs]
  | cons x rest ih =>
    intro c hne hchain
    by_cases hgap : tsOf x - lastTs c > t
    · have hruns : runs t c (x :: rest) = c :: runs t [x] rest := by
        simp [runs, hgap]
      have ih' := ih [x] (by simp) (List.chain'_singleton x)
      rw [hruns]
      refine ⟨?_, ?_, ?_⟩
      · intro b hb
        rcases List.mem_cons.mp hb with hb | hb
        · subst hb; exact ⟨hne, hchain⟩
        · exact ih'.1 b hb
      · refine List.chain'_cons'.mpr ⟨?_, ih'.2.1⟩
        intro y hy
        have hy' : (runs t [x] rest).head? = some y := Option.mem_def.mp hy
        have hhd : (runs t [x] rest).headD [] = y := by
          rw [List.headD_eq_head?, hy']
          rfl
        have hfy : firstTs y = tsOf x := by
          rw [← hhd, ih'.2.2, firstTs_cons]
        simp only [interGap, hfy]
        omega
      · simp [firstTs]
    · have hruns : runs t c (x :: rest) = runs t (c ++ [x]) rest := by
        simp [runs, hgap]
      have hchain' : List.Chain' (gapLe t) (c ++ [x]) := by
        refine chain_concat hchain ?_
        intro a ha
        have := lastTs_of_getLast? c a ha
        simp only [gapLe]
        omega
      have ih' := ih (c ++ [x]) (by simp) hchain'
      rw [hruns]
      exact ⟨ih'.1, ih'.2.1, by rw [ih'.2.2, firstTs_append c [x] hne]⟩

theorem group_loop_eq_runs (t : Int) (l : List MediaItem) :
    ∀ (batches : List TemporalBatch) (c : List MediaItem) (start_t : Int),
      c ≠ [] → start_t = firstTs c →
      group_loop t batches c start_t l = batches ++ (runs t c l).map mkBatch := by
  induction l with
  | nil =>
    intro batches c start_t hne hstart
    simp only [group_loop, runs, List.isEmpty_eq_true, hne, if_false, List.map_cons,
      List.map_nil, mkBatch, hstart]
  | cons x rest ih =>
    intro batches c start_t hne hstart
    have hempty : c.isEmpty = false := by
      cases c with
      | nil => exact absurd rfl hne
      | cons a l => rfl
    simp only [group_loop, hempty, Bool.false_eq_true, if_false]
    by_cases hgap : tsOf x - lastTs c > t
    · rw [if_pos hgap]
      have h1 := ih (batches ++ [⟨start_t, lastTs c, c⟩]) [x] (tsOf x) (by simp) rfl
      rw [h1]
      simp [runs, hgap, mkBatch, hstart, List.append_assoc]
    · rw [if_neg hgap]
      have h1 := ih batches (c ++ [x]) start_t (by simp)
        (by rw [hstart, firstTs_append c [x] hne])
      rw [h1]
      simp [runs, hgap]

theorem group_eq_nil (items : List MediaItem) (t : Int)
    (h : (items.filter fun i => i.timestamp.isSome).mergeSort mediaLe = []) :
    group_by_temporal_proximity items t = [] := by
  by_cases hi : items.isEmpty
  · simp [group_by_temporal_proximity, hi]
  · simp [group_by_temporal_proximity, hi, h]

theorem group_eq_runs (items : List MediaItem) (t : Int) (x : MediaItem)
    (rest : List MediaItem)
    (h : (items.filter fun i => i.timestamp.isSome).mergeSort mediaLe = x :: rest) :
    group_by_temporal_proximity items t = (runs t [x] rest).map mkBatch := by
  have hi : items.isEmpty = false := by
    rcases items with _ | ⟨a, as⟩
    · simp at h
    · rfl
  simp only [group_by_temporal_proximity, hi, Bool.false_eq_true, if_false, h]
  simp only [List.isEmpty_cons, Bool.false_eq_true, if_false]
  have hstep : group_loop t [] [] (tsOf ((x :: rest).headD default)) (x :: rest) =
      group_loop t [] [x] (tsOf ((x :: rest).headD default)) rest := by
    simp [group_loop]
  rw [hstep]
  rw [group_loop_eq_runs t rest [] [x] (tsOf ((x :: rest).headD default)) (by simp)
    (by simp [firstTs])]
  simp

theorem optTsLe_trans (a b c : Option Int) (hab : optTsLe a b = true)
    (hbc : optTsLe b c = true) : optTsLe a c = true := by
  rcases a with _ | x <;> rcases b with _ | y <;> rcases c with _ | z <;>
    simp_all [optTsLe] <;> omega

theorem optTsLe_total (a b : Option Int) : (optTsLe a b || optTsLe b a) = true := by
  rcases a with _ | x <;> rcases b with _ | y <;> simp [optTsLe] <;> omega

theorem mediaLe_trans (a b c : MediaItem) (hab : mediaLe a b = true)
    (hbc : mediaLe b c = true) : mediaLe a c = true :=
  optTsLe_trans a.timestamp b.timestamp c.timestamp hab hbc

theorem mediaLe_total (a b : MediaItem) : (mediaLe a b || mediaLe b a) = true :=
  optTsLe_total a.timestamp b.timestamp

theorem mediaLe_tsOf {a b : MediaItem} (ha : a.timestamp.isSome = true)
    (hb : b.timestamp.isSome = true) (h : mediaLe a b = true) : tsOf a ≤ tsOf b := by
  rcases hx : a.timestamp with _ | x
  · rw [hx] at ha; simp at ha
  · rcases hy : b.timestamp with _ | y
    · rw [hy] at hb; simp at hb
    · have h' : optTsLe (some x) (some y) = true := by
        rw [← hx, ← hy]; exact h
      simp only [optTsLe, decide_eq_true_eq] at h'
      simp [tsOf, hx, hy, h']

theorem sorted_mergeSort_mediaLe (l : List MediaItem) :
    List.Pairwise (fun a b => mediaLe a b = true) (l.mergeSort mediaLe) :=
  @List.sorted_mergeSort MediaItem mediaLe
    (fun a b c => mediaLe_trans a b c) (fun a b => mediaLe_total a b) l

theorem flatMap_mkBatch (rs : List (List MediaItem)) :
    ((rs.map mkBatch).flatMap fun b => b.items) = rs.flatten := by
  induction rs with
  | nil => rfl
  | cons r rs ih => simp [mkBatch, ih]

theorem mem_mergeSort_filter_isSome {items : List MediaItem} {i : MediaItem}
    (hi : i ∈ (items.filter fun j => j.timestamp.isSome).mergeSort mediaLe) :
    i.timestamp.isSome = true := by
  have hmem : i ∈ items.filter fun j => j.timestamp.isSome :=
    (List.mergeSort_perm (items.filter fun j => j.timestamp.isSome) mediaLe).mem_iff.mp hi
  exact (List.mem_filter.mp hmem).2

/-- C8: `group_by_temporal_proximity` loses and duplicates nothing: the
concatenation of the returned batches' items is a permutation of the
timestamped sub-list of the input and is sorted ascending by timestamp;
no timestamped items give zero batches, and exactly one timestamped item
gives exactly one batch containing it. -/
theorem group_by_temporal_proximity_conservation (items : List MediaItem) (t : Int) :
    ((group_by_temporal_proximity items t).flatMap fun b => b.items).Perm
      (items.filter fun i => i.timestamp.isSome) ∧
    List.Chain' (fun i j => tsOf i ≤ tsOf j)
      ((group_by_temporal_proximity items t).flatMap fun b => b.items) ∧
    ((∀ i ∈ items, i.timestamp = none) → group_by_temporal_proximity items t = []) ∧
    (∀ x : MediaItem, (items.filter fun i => i.timestamp.isSome) = [x] →
      ∃ b, group_by_temporal_proximity items t = [b] ∧ b.items = [x]) := by
  rcases hs : (items.filter fun i => i.timestamp.isSome).mergeSort mediaLe with _ | ⟨x, rest⟩
  · have hg := group_eq_nil items t hs
    have hperm := List.mergeSort_perm (items.filter fun i => i.timestamp.isSome) mediaLe
    rw [hs] at hperm
    have hfil : (items.filter fun i => i.timestamp.isSome) = [] :=
      List.nil_perm.mp hperm
    rw [hg]
    refine ⟨by simp [hfil], by simp, fun _ => rfl, ?_⟩
    intro x hx
    rw [hfil] at hx
    exact absurd hx (by simp)
  · have hg := group_eq_runs items t x rest hs
    have hflat : ((group_by_temporal_proximity items t).flatMap fun b => b.items) =
        x :: rest := by
      rw [hg, flatMap_mkBatch, runs_flatten]
      rfl
    have hperm := List.mergeSort_perm (items.filter fun i => i.timestamp.isSome) mediaLe
    rw [hs] at hperm
    refine ⟨by rw [hflat]; exact hperm, ?_, ?_, ?_⟩
    · rw [hflat, ← hs]
      have hpw := sorted_mergeSort_mediaLe (items.filter fun i => i.timestamp.isSome)
      have hpw2 : List.Pairwise (fun i j => tsOf i ≤ tsOf j)
          ((items.filter fun i => i.timestamp.isSome).mergeSort mediaLe) := by
        refine hpw.imp_of_mem ?_
        intro a b ha hb hab
        exact mediaLe_tsOf (mem_mergeSort_filter_isSome ha)
          (mem_mergeSort_filter_isSome hb) hab
      exact hpw2.chain'
    · intro hnone
      have hfil : (items.filter fun i => i.timestamp.isSome) = [] := by
        rw [List.filter_eq_nil_iff]
        intro a ha
        simp [hnone a ha]
      rw [hfil] at hs
      simp at hs
    · intro y hy
      rw [hy, List.mergeSort_singleton] at hs
      simp only [List.cons.injEq] at hs
      obtain ⟨h1, h2⟩ := hs
      subst h1
      subst h2
      refine ⟨mkBatch [y], ?_, rfl⟩
      rw [hg]
      simp [runs]

/-- C1: in the output of `group_by_temporal_proximity`, the gap from one
batch's last item timestamp to the next batch's first item timestamp is
strictly greater than the threshold, every intra-batch consecutive gap is
at most the threshold, and a gap exactly equal to the threshold does not
start a new batch. -/
theorem temporal_batch_gap_invariant (items : List MediaItem) (t : Int) :
    List.Chain' (fun b1 b2 => firstTs b2.items - lastTs b1.items > t)
      (group_by_temporal_proximity items t) ∧
    (∀ b ∈ group_by_temporal_proximity items t,
      List.Chain' (fun i j => tsOf j - tsOf i ≤ t) b.items) ∧
    (∀ (x y : MediaItem) (a : Int), 0 ≤ t → x.timestamp = some a →
      y.timestamp = some (a + t) →
      (group_by_temporal_proximity [x, y] t).length = 1) := by
  refine ⟨?_, ?_, ?_⟩
  · rcases hs : (items.filter fun i => i.timestamp.isSome).mergeSort mediaLe
      with _ | ⟨x, rest⟩
    · rw [group_eq_nil items t hs]
      exact List.chain'_nil
    · rw [group_eq_runs items t x rest hs, List.chain'_map]
      have hinv := runs_invariant t rest [x] (by simp) (List.chain'_singleton x)
      exact hinv.2.1
  · intro b hb
    rcases hs : (items.filter fun i => i.timestamp.isSome).mergeSort mediaLe
      with _ | ⟨x, rest⟩
    · rw [group_eq_nil items t hs] at hb
      exact absurd hb (by simp)
    · rw [group_eq_runs items t x rest hs] at hb
      obtain ⟨r, hr, hrb⟩ := List.mem_map.mp hb
      have hinv := runs_invariant t rest [x] (by simp) (List.chain'_singleton x)
      have := (hinv.1 r hr).2
      rw [← hrb]
      exact this
  · intro x y a ht hx hy
    have hfil : ([x, y].filter fun i => i.timestamp.isSome) = [x, y] := by
      simp [List.filter, hx, hy]
    have hle : mediaLe x y = true := by
      simp only [mediaLe, hx, hy, optTsLe, decide_eq_true_eq]
      omega
    have hpw : List.Pairwise (fun a b => mediaLe a b = true) [x, y] := by
      simp [hle]
    have hms : ([x, y].filter fun i => i.timestamp.isSome).mergeSort mediaLe =
        x :: [y] := by
      rw [hfil]
      exact List.mergeSort_of_sorted hpw
    rw [group_eq_runs [x, y] t x [y] hms]
    have hgap : ¬(tsOf y - lastTs [x] > t) := by
      have h1 : lastTs [x] = tsOf x := by
        simpa using lastTs_concat [] x
      rw [h1]
      simp only [tsOf, hx, hy, Option.getD_some]
      omega
    simp [runs, hgap]

/-- C3: batching is idempotent: re-batching the concatenation of the output
batches' items with the same threshold reproduces the same batches. -/
theorem group_by_temporal_proximity_idempotent (items : List MediaItem) (t : Int) :
    group_by_temporal_proximity
      ((group_by_temporal_proximity items t).flatMap fun b => b.items) t =
      group_by_temporal_proximity items t := by
  rcases hs : (items.filter fun i => i.timestamp.isSome).mergeSort mediaLe
    with _ | ⟨x, rest⟩
  · rw [group_eq_nil items t hs]
    simp [group_by_temporal_proximity]
  · have hg := group_eq_runs items t x rest hs
    have hflat : ((group_by_temporal_proximity items t).flatMap fun b => b.items) =
        x :: rest := by
      rw [hg, flatMap_mkBatch, runs_flatten]
      rfl
    rw [hflat, hg]
    have hmem : ∀ i ∈ x :: rest, i.timestamp.isSome = true := by
      intro i hi
      rw [← hs] at hi
      exact mem_mergeSort_filter_isSome hi
    have hfil2 : ((x :: rest).filter fun i => i.timestamp.isSome) = x :: rest :=
      List.filter_eq_self.mpr hmem
    have hpw : List.Pairwise (fun a b => mediaLe a b = true) (x :: rest) := by
      rw [← hs]
      exact sorted_mergeSort_mediaLe _
    have hms2 : ((x :: rest).filter fun i => i.timestamp.isSome).mergeSort mediaLe =
        x :: rest := by
      rw [hfil2]
      exact List.mergeSort_of_sorted hpw
    exact group_eq_runs (x :: rest) t x rest hms2

theorem copy_skip_counts_fold (d : List Nat) (l : List MediaItem) :
    ∀ a b : Nat,
      l.foldl (fun acc i =>
          if d.contains i.hash then (acc.1, acc.2 + 1) else (acc.1 + 1, acc.2)) (a, b) =
        (a + l.countP fun i => !(d.contains i.hash),
         b + l.countP fun i => d.contains i.hash) := by
  induction l with
  | nil => intro a b; simp
  | cons x xs ih =>
    intro a b
    by_cases h : d.contains x.hash = true
    · rw [List.foldl_cons, if_pos h, ih]
      simp only [List.countP_cons, h, Prod.mk.injEq, Bool.not_true]
      constructor <;> simp <;> omega
    · have h' : d.contains x.hash = false := Bool.eq_false_iff.mpr h
      rw [List.foldl_cons, if_neg h, ih]
      simp only [List.countP_cons, h', Prod.mk.injEq, Bool.not_false]
      constructor <;> simp <;> omega

theorem ingest_plan_snd (d : List Nat) (batches : List (TemporalBatch × String)) :
    ∀ e ∈ ingest_plan d batches, e.2 = plan_action d e.1 := by
  intro e he
  obtain ⟨i, _, rfl⟩ := List.mem_map.mp he
  rfl

/-- C4: during ingest planning, a record whose content hash is already in
the destination index gets action `SkipDuplicate` and one whose hash is
absent gets action `Copy`; the copied and skipped files are counted
separately. -/
theorem ingest_plan_duplicate_action (dest_hashes : List Nat)
    (batches : List (TemporalBatch × String)) :
    (∀ e ∈ ingest_plan dest_hashes batches,
      (dest_hashes.contains e.1.hash = true → e.2 = PlanAction.SkipDuplicate) ∧
      (dest_hashes.contains e.1.hash = false → e.2 = PlanAction.Copy)) ∧
    copy_skip_counts dest_hashes batches =
      ((ingest_plan dest_hashes batches).countP fun e => e.2 == PlanAction.Copy,
       (ingest_plan dest_hashes batches).countP
         fun e => e.2 == PlanAction.SkipDuplicate) := by
  constructor
  · intro e he
    have h2 := ingest_plan_snd dest_hashes batches e he
    constructor
    · intro hc
      have hc' : e.1.hash ∈ dest_hashes := List.mem_of_elem_eq_true hc
      rw [h2]
      simp [plan_action, hc']
    · intro hc
      have hc' : e.1.hash ∉ dest_hashes := by
        intro hmem
        have hm2 : dest_hashes.contains e.1.hash = true :=
          List.elem_eq_true_of_mem hmem
        rw [hc] at hm2
        cases hm2
      rw [h2]
      simp [plan_action, hc']
  · unfold copy_skip_counts ingest_plan
    rw [copy_skip_counts_fold dest_hashes (batches.flatMap fun bn => bn.1.items) 0 0]
    rw [List.countP_map, List.countP_map]
    simp only [Prod.mk.injEq, Nat.zero_add]
    constructor
    · refine List.countP_congr ?_
      intro x _
      by_cases h : x.hash ∈ dest_hashes <;> simp [Function.comp, plan_action, h]
    · refine List.countP_congr ?_
      intro x _
      by_cases h : x.hash ∈ dest_hashes <;> simp [Function.comp, plan_action, h]

/-- C10: the destination hash index is fixed for the whole ingest run
(built once before copying, never updated while copying), so two source
records with the same content hash that is absent from the index are both
assigned action `Copy`: the second is not skipped as a duplicate of the
first. -/
theorem ingest_plan_static_index_copies_both (dest_items : List MediaItem)
    (batches : List (TemporalBatch × String)) (i j : Nat)
    (hi : i < (ingest_plan (dest_hash_index dest_items) batches).length)
    (hj : j < (ingest_plan (dest_hash_index dest_items) batches).length)
    (hhash : ((ingest_plan (dest_hash_index dest_items) batches).get ⟨i, hi⟩).1.hash =
      ((ingest_plan (dest_hash_index dest_items) batches).get ⟨j, hj⟩).1.hash)
    (habs : (dest_hash_index dest_items).contains
      ((ingest_plan (dest_hash_index dest_items) batches).get ⟨i, hi⟩).1.hash = false) :
    ((ingest_plan (dest_hash_index dest_items) batches).get ⟨i, hi⟩).2 =
      PlanAction.Copy ∧
    ((ingest_plan (dest_hash_index dest_items) batches).get ⟨j, hj⟩).2 =
      PlanAction.Copy := by
  have habs' : ((ingest_plan (dest_hash_index dest_items) batches).get ⟨j, hj⟩).1.hash ∉
      dest_hash_index dest_items := by
    intro hmem
    have hm2 : (dest_hash_index dest_items).contains
        ((ingest_plan (dest_hash_index dest_items) batches).get ⟨j, hj⟩).1.hash = true :=
      List.elem_eq_true_of_mem hmem
    rw [← hhash, habs] at hm2
    cases hm2
  have habsi : ((ingest_plan (dest_hash_index dest_items) batches).get ⟨i, hi⟩).1.hash ∉
      dest_hash_index dest_items := by
    rw [hhash]
    exact habs'
  have hmi := List.get_mem (ingest_plan (dest_hash_index dest_items) batches) i hi
  have hmj := List.get_mem (ingest_plan (dest_hash_index dest_items) batches) j hj
  have h2i := ingest_plan_snd (dest_hash_index dest_items) batches _ hmi
  have h2j := ingest_plan_snd (dest_hash_index dest_items) batches _ hmj
  rw [h2i, h2j]
  constructor
  · simp only [plan_action]
    rw [if_neg]
    intro hm
    exact habsi (List.mem_of_elem_eq_true hm)
  · simp only [plan_action]
    rw [if_neg]
    intro hm
    exact habs' (List.mem_of_elem_eq_true hm)

/-- C10 witness: a destination with no existing files and two source
records with identical content hash 5; both entries of the plan are
`Copy`. -/
theorem ingest_plan_static_index_copies_both_witness :
    ((ingest_plan (dest_hash_index [])
        [(⟨0, 0, [sampleItemHash 5, sampleItemHash 5]⟩, "trip")]).get
      ⟨0, by simp [ingest_plan, dest_hash_index, sampleItemHash]⟩).2 =
        PlanAction.Copy ∧
    ((ingest_plan (dest_hash_index [])
        [(⟨0, 0, [sampleItemHash 5, sampleItemHash 5]⟩, "trip")]).get
      ⟨1, by simp [ingest_plan, dest_hash_index, sampleItemHash]⟩).2 =
        PlanAction.Copy :=
  ingest_plan_static_index_copies_both []
    [(⟨0, 0, [sampleItemHash 5, sampleItemHash 5]⟩, "trip")] 0 1
    (by simp [ingest_plan, dest_hash_index, sampleItemHash])
    (by simp [ingest_plan, dest_hash_index, sampleItemHash])
    (by simp [ingest_plan, dest_hash_index, sampleItemHash, plan_action])
    (by simp [ingest_plan, dest_hash_index, sampleItemHash, plan_action])

/-- C2 counterexample: a record whose embedded metadata yields no capture
timestamp and whose filesystem modification time cannot be read does NOT
fail the scan: the resolution step returns a successful "no timestamp",
not an error. -/
theorem scan_timestamp_metadata_failure_counterexample :
    scan_timestamp (α := Int) (Except.ok none)
      (Except.error "Failed to get file modification time") = Except.ok none := rfl

/-- C2 amended: when the capture timestamp is unavailable from embedded
metadata and reading the filesystem modification time fails, the scan
continues without error: the record gets no timestamp and the folder path
falls back to the literal "unknown-date". -/
theorem scan_timestamp_metadata_failure_continues (α : Type) (e : String)
    (gen : α → String) :
    scan_timestamp (α := α) (Except.ok none) (Except.error e) = Except.ok none ∧
    scan_folder_path gen (none : Option α) = "unknown-date" :=
  ⟨rfl, rfl⟩

/-- C5: the naming engine produces zero-padded `YYYYMMDD-HHMMSS-{batch}.{ext}`
filenames and zero-padded `YYYY/MM/DD` folder paths from the UTC calendar
fields; in particular the spec's two examples hold. -/
theorem generate_names_format :
    (∀ (ts : UtcDateTime) (batch_name extension : String),
      generate_filename ts batch_name extension =
        pad_width 4 ts.year ++ pad_width 2 ts.month ++ pad_width 2 ts.day ++ "-" ++
          pad_width 2 ts.hour ++ pad_width 2 ts.minute ++ pad_width 2 ts.second ++
          "-" ++ batch_name ++ "." ++ extension) ∧
    (∀ ts : UtcDateTime,
      generate_folder_path ts =
        pad_width 4 ts.year ++ "/" ++ pad_width 2 ts.month ++ "/" ++
          pad_width 2 ts.day) ∧
    generate_filename ⟨2024, 11, 4, 14, 2, 15⟩ "morning" "jpg" =
      "20241104-140215-morning.jpg" ∧
    generate_folder_path ⟨2024, 11, 4, 14, 2, 15⟩ = "2024/11/04" :=
  ⟨fun _ _ _ => rfl, fun _ => rfl, rfl, rfl⟩

/-- C9: `detect_media_type` returns `none` (the file is excluded from all
processing) whenever the path has no extension at all or its extension is
not valid UTF-8, not only for unrecognized extensions. -/
theorem detect_media_type_missing_extension (p : FsPath)
    (h : p.extension = none ∨ ∃ o, p.extension = some o ∧ o.utf8 = none) :
    detect_media_type p = none := by
  rcases h with h | ⟨o, ho, hu⟩
  · simp [detect_media_type, h]
  · simp [detect_media_type, ho, hu]

/-- C9 witness: a path with no extension and a path whose extension is not
valid UTF-8 are both rejected. -/
theorem detect_media_type_missing_extension_witness :
    detect_media_type ⟨none⟩ = none ∧ detect_media_type ⟨some ⟨none⟩⟩ = none :=
  ⟨detect_media_type_missing_extension ⟨none⟩ (Or.inl rfl),
   detect_media_type_missing_extension ⟨some ⟨none⟩⟩ (Or.inr ⟨⟨none⟩, rfl, rfl⟩)⟩

/-- C6: `validate_batch_name` accepts exactly the nonempty names made of
alphanumerics, hyphens and underscores that contain at least one
alphanumeric; the three rules are checked in the source's order, each with
its own distinct error message; the spec's examples behave as stated. -/
theorem validate_batch_name_spec :
    (∀ (al : Char → Bool) (name : String),
      validate_batch_name al name = Except.ok () ↔
        (name.isEmpty = false ∧
         name.toList.all (fun c => al c || c == '-' || c == '_') = true ∧
         name.toList.any al = true)) ∧
    (∀ (al : Char → Bool) (name : String), name.isEmpty = true →
      validate_batch_name al name = Except.error "Batch name cannot be empty") ∧
    (∀ (al : Char → Bool) (name : String), name.isEmpty = false →
      name.toList.all (fun c => al c || c == '-' || c == '_') = false →
      validate_batch_name al name = Except.error
        ("Batch name must contain only alphanumeric characters, hyphens, and underscores (got: " ++ name ++ ")")) ∧
    (∀ (al : Char → Bool) (name : String), name.isEmpty = false →
      name.toList.all (fun c => al c || c == '-' || c == '_') = true →
      name.toList.any al = false →
      validate_batch_name al name = Except.error
        ("Batch name must contain at least one alphanumeric character (got: " ++ name ++ ")")) ∧
    validate_batch_name Char.isAlphanum "vacation-2024" = Except.ok () ∧
    validate_batch_name Char.isAlphanum "family_reunion" = Except.ok () ∧
    (validate_batch_name Char.isAlphanum "trip 1").isOk = false ∧
    (validate_batch_name Char.isAlphanum "vacation!").isOk = false ∧
    validate_batch_name Char.isAlphanum "" =
      Except.error "Batch name cannot be empty" ∧
    validate_batch_name Char.isAlphanum "---" =
      Except.error "Batch name must contain at least one alphanumeric character (got: ---)" ∧
    ("Batch name cannot be empty" : String) ≠
      "Batch name must contain only alphanumeric characters, hyphens, and underscores (got: vacation!)" ∧
    ("Batch name cannot be empty" : String) ≠
      "Batch name must contain at least one alphanumeric character (got: ---)" ∧
    ("Batch name must contain only alphanumeric characters, hyphens, and underscores (got: vacation!)" : String) ≠
      "Batch name must contain at least one alphanumeric character (got: ---)" := by
  refine ⟨?_, ?_, ?_, ?_, rfl, rfl, by decide, by decide, rfl, rfl,
    by decide, by decide, by decide⟩
  · intro al name
    unfold validate_batch_name
    cases h1 : name.isEmpty <;>
      cases h2 : name.toList.all (fun c => al c || c == '-' || c == '_') <;>
      cases h3 : name.toList.any al <;> simp
  · intro al name h1
    unfold validate_batch_name
    rw [h1]
    simp
  · intro al name h1 h2
    unfold validate_batch_name
    rw [h1, h2]
    simp
  · intro al name h1 h2 h3
    unfold validate_batch_name
    rw [h1, h2, h3]
    simp

/-- C6 witness: the ordered checks applied at concrete inputs: the empty
name hits the first error, a name with a space hits the second. -/
theorem validate_batch_name_spec_witness :
    validate_batch_name Char.isAlphanum "" =
      Except.error "Batch name cannot be empty" ∧
    validate_batch_name Char.isAlphanum "trip 1" = Except.error
      "Batch name must contain only alphanumeric characters, hyphens, and underscores (got: trip 1)" :=
  ⟨validate_batch_name_spec.2.1 Char.isAlphanum "" rfl,
   validate_batch_name_spec.2.2.1 Char.isAlphanum "trip 1" rfl (by decide)⟩

/-- C7: `get_capture_timestamp` always returns a successful "no timestamp"
for videos, and for photos it soft-fails to "no timestamp" (never an
error) when the container cannot be parsed, the `DateTimeOriginal` field
is absent, the field value is not ASCII, the ASCII vector is empty, or the
datetime string does not parse. -/
theorem get_capture_timestamp_soft_fail :
    (∀ (vf : VideoFormat) (env : PhotoReadEnv) (parse : String → Option Int),
      get_capture_timestamp (.Video vf) env parse = Except.ok none) ∧
    (∀ (pf : PhotoFormat) (e : String) (parse : String → Option Int),
      get_capture_timestamp (.Photo pf) ⟨Except.ok (), Except.error e⟩ parse =
        Except.ok none) ∧
    (∀ (pf : PhotoFormat) (parse : String → Option Int),
      get_capture_timestamp (.Photo pf) ⟨Except.ok (), Except.ok ⟨none⟩⟩ parse =
        Except.ok none) ∧
    (∀ (pf : PhotoFormat) (parse : String → Option Int),
      get_capture_timestamp (.Photo pf)
        ⟨Except.ok (), Except.ok ⟨some .other⟩⟩ parse = Except.ok none) ∧
    (∀ (pf : PhotoFormat) (parse : String → Option Int),
      get_capture_timestamp (.Photo pf)
        ⟨Except.ok (), Except.ok ⟨some (.ascii [])⟩⟩ parse = Except.ok none) ∧
    (∀ (pf : PhotoFormat) (s : String) (strs : List String)
      (parse : String → Option Int), parse s.trim = none →
      get_capture_timestamp (.Photo pf)
        ⟨Except.ok (), Except.ok ⟨some (.ascii (s :: strs))⟩⟩ parse =
        Except.ok none) := by
  refine ⟨fun _ _ _ => rfl, fun _ _ _ => rfl, fun _ _ => rfl, fun _ _ => rfl,
    fun _ _ => rfl, ?_⟩
  intro pf s strs parse h
  have hred : get_capture_timestamp (.Photo pf)
      ⟨Except.ok (), Except.ok ⟨some (.ascii (s :: strs))⟩⟩ parse =
      match parse s.trim with
      | some dt => Except.ok (some dt)
      | none => Except.ok none := rfl
  rw [hred, h]

/-- C7 witness: a photo whose EXIF datetime string does not parse yields a
successful "no timestamp". -/
theorem get_capture_timestamp_soft_fail_witness :
    get_capture_timestamp (.Photo .Jpeg)
      ⟨Except.ok (), Except.ok ⟨some (.ascii ["not a date"])⟩⟩
      (fun _ => none) = Except.ok none :=
  get_capture_timestamp_soft_fail.2.2.2.2.2 .Jpeg "not a date" []
    (fun _ => none) rfl

/-- C1 witness: two items exactly one threshold apart land in a single
batch (the boundary gap does not split). -/
theorem temporal_batch_gap_invariant_witness :
    (group_by_temporal_proximity [sampleItem 0, sampleItem 5] 5).length = 1 :=
  (temporal_batch_gap_invariant [] 5).2.2 (sampleItem 0) (sampleItem 5) 0
    (by decide) rfl (by decide)

/-- C4 witness: with destination index `[5]`, a record with hash 5 is
skipped as a duplicate and a record with hash 7 is copied. -/
theorem ingest_plan_duplicate_action_witness :
    (sampleItemHash 5, plan_action [5] (sampleItemHash 5)).2 =
      PlanAction.SkipDuplicate ∧
    (sampleItemHash 7, plan_action [5] (sampleItemHash 7)).2 = PlanAction.Copy :=
  ⟨((ingest_plan_duplicate_action [5]
        [(⟨0, 0, [sampleItemHash 5, sampleItemHash 7]⟩, "b")]).1
      (sampleItemHash 5, plan_action [5] (sampleItemHash 5))
      (by simp [ingest_plan, sampleItemHash])).1 (by decide),
   ((ingest_plan_duplicate_action [5]
        [(⟨0, 0, [sampleItemHash 5, sampleItemHash 7]⟩, "b")]).1
      (sampleItemHash 7, plan_action [5] (sampleItemHash 7))
      (by simp [ingest_plan, sampleItemHash])).2 (by decide)⟩

/-- C8 witness: an input with no timestamped item yields zero batches, and
an input with exactly one timestamped item yields one batch holding it. -/
theorem group_by_temporal_proximity_conservation_witness :
    group_by_temporal_proximity [sampleItemNoTs] 7 = [] ∧
    ∃ b, group_by_temporal_proximity [sampleItem 3] 7 = [b] ∧
      b.items = [sampleItem 3] :=
  ⟨(group_by_temporal_proximity_conservation [sampleItemNoTs] 7).2.2.1
      (by decide),
   (group_by_temporal_proximity_conservation [sampleItem 3] 7).2.2.2
      (sampleItem 3) (by decide)⟩
